import Mathlib

/-
Verification development for the gasify library (gas mixtures, unit
handling and humidity formulas).

The definitions below are a shallow embedding of the Python sources:
  * `gasify/gas.py`   — compounds, concentrations and mixtures;
  * `gasify/unit.py`  — compact display of dimensionless quantities and
    the `parse` entry point;
  * `gasify/humidity.py` — Wagner-Pruss saturation vapour pressure.

Machine floats are modelled as exact rationals (ℚ) for the algebraic
layer and as reals (ℝ) for the transcendental humidity formula.
Python exceptions are modelled with `Except`.
-/

namespace Gasify

/-! ## Data model: `gasify/gas.py` -/

/-- Molecular structure constant for monatomic gases (`MONATOMIC`). -/
def MONATOMIC : ℚ := 1.03

/-- Molecular structure constant for diatomic gases (`DIATOMIC`). -/
def DIATOMIC : ℚ := 1

/-- Molecular structure constant for triatomic gases (`TRIATOMIC`). -/
def TRIATOMIC : ℚ := 0.941

/-- Molecular structure constant for polyatomic gases (`POLYATOMIC`). -/
def POLYATOMIC : ℚ := 0.88

/-- Embedding of `gasify.gas.Compound`.  `specific_heat` is the magnitude in
cal/g and `density` the magnitude in g/L, as in the source registry.
The `analyte` field models the `_analyte` dataclass field. -/
structure Compound where
  name : String
  symbol : Option String
  molecular_structure : Option ℚ
  specific_heat : Option ℚ
  density : Option ℚ
  analyte : Bool
  order : Int
deriving DecidableEq

/-- Embedding of `gasify.gas.CompoundConcentration`.  The stored
`concentration` is the dimensionless magnitude (`m_as(dimensionless)`) of
the concentration quantity; `to_compact()` only changes the display unit,
not this value. -/
structure CompoundConcentration where
  concentration : ℚ
  compound : Compound
deriving DecidableEq

/-- Embedding of `CompoundConcentration.__post_init__`: the concentration is
validated non-negative (the dimensionless check always passes in this model
because concentrations are stored as dimensionless rationals). -/
def mkCompoundConcentration (c : ℚ) (compound : Compound) :
    Except String CompoundConcentration :=
  if c < 0 then Except.error "Gas concentration cannot be below zero"
  else Except.ok ⟨c, compound⟩

/-- Embedding of `Compound.__eq__`: equality depends only on the name. -/
def compoundEq (a b : Compound) : Bool := a.name == b.name

/-- Embedding of `Compound.__lt__`: sort by `(order, name)`. -/
def compoundLt (a b : Compound) : Prop :=
  a.order < b.order ∨ (a.order = b.order ∧ a.name < b.name)

instance (a b : Compound) : Decidable (compoundLt a b) := by
  unfold compoundLt
  infer_instance

/-- Embedding of `CompoundConcentration.__lt__` (the branch used by
`sorted`): identical compounds compare by concentration, otherwise the
compounds compare by `(order, name)`. -/
def ccLtB (a b : CompoundConcentration) : Bool :=
  if a.compound.name = b.compound.name then decide (a.concentration < b.concentration)
  else decide (compoundLt a.compound b.compound)

/-- Embedding of `CompoundConcentration.__eq__` for two concentrations:
compounds equal by name and magnitudes within the 1e-15 tolerance. -/
def ccEq (a b : CompoundConcentration) : Bool :=
  compoundEq a.compound b.compound &&
    decide (|a.concentration - b.concentration| ≤ 1 / 1000000000000000)

/-- One step of the `parts_lut` accumulation in `Mixture.__init__`:
`parts_lut[part.compound] += part.concentration.m_as(dimensionless)` for a
dict keyed by compound identity (name), preserving insertion order. -/
def insertPart (lut : List (Compound × ℚ)) (part : CompoundConcentration) :
    List (Compound × ℚ) :=
  match lut with
  | [] => [(part.compound, part.concentration)]
  | (c, q) :: rest =>
    if c.name = part.compound.name then (c, q + part.concentration) :: rest
    else (c, q) :: insertPart rest part

/-- The `parts_lut` dictionary of `Mixture.__init__` as an insertion-ordered
association list. -/
def partsLut (parts : List CompoundConcentration) : List (Compound × ℚ) :=
  parts.foldl insertPart []

/-- Rebuild `CompoundConcentration` values from the lookup table, as the list
comprehension in `Mixture.__init__` does. -/
def lutEntries (lut : List (Compound × ℚ)) : List CompoundConcentration :=
  lut.map fun e => ⟨e.2, e.1⟩

/-- Insertion step of the sort performed by `sorted(...)` in
`Mixture.__init__`, driven by `CompoundConcentration.__lt__`. -/
def sortInsert (x : CompoundConcentration) :
    List CompoundConcentration → List CompoundConcentration
  | [] => [x]
  | y :: ys => if ccLtB x y then x :: y :: ys else y :: sortInsert x ys

/-- The sort performed by `sorted(...)` in `Mixture.__init__`.  On the
grouped component list all compound names are distinct, so any comparison
sort agrees with Python's stable sort here. -/
def sortParts : List CompoundConcentration → List CompoundConcentration
  | [] => []
  | x :: xs => sortInsert x (sortParts xs)

/-- Embedding of `gasify.gas.Mixture`: the grouped and sorted component
tuple plus the optional mixture name. -/
structure Mixture where
  content : List CompoundConcentration
  name : Option String
deriving DecidableEq

/-- The component list built by `Mixture.__init__`: group the parts by
compound identity, summing concentrations, then sort. -/
def mixtureContent (parts : List CompoundConcentration) :
    List CompoundConcentration :=
  sortParts (lutEntries (partsLut parts))

/-- Embedding of the `Mixture(*content, name=...)` constructor. -/
def Mixture.ofParts (parts : List CompoundConcentration) (mname : Option String) :
    Mixture :=
  ⟨mixtureContent parts, mname⟩

/-- Embedding of `CompoundConcentration.__add__` for two concentrations:
`Mixture(self, other)`. -/
def ccAdd (a b : CompoundConcentration) : Mixture :=
  Mixture.ofParts [a, b] none

/-- Embedding of `Mixture.__add__` for two mixtures:
`Mixture(*self, *other)`. -/
def Mixture.add (m other : Mixture) : Mixture :=
  Mixture.ofParts (m.content ++ other.content) none

/-- Sum of the dimensionless concentration magnitudes of a part list. -/
def partsSum (parts : List CompoundConcentration) : ℚ :=
  (parts.map fun p => p.concentration).sum

/-- Embedding of the `Mixture.total` property (the dimensionless value of
the compacted total; compaction does not change the value). -/
def Mixture.total (m : Mixture) : ℚ := partsSum m.content

/-- Structural recursion over a part list applying a fallible constructor,
modelling a Python generator expression whose body may raise. -/
def exceptMapParts (f : CompoundConcentration → Except String CompoundConcentration) :
    List CompoundConcentration → Except String (List CompoundConcentration)
  | [] => Except.ok []
  | x :: xs =>
    match f x with
    | Except.error e => Except.error e
    | Except.ok y =>
      match exceptMapParts f xs with
      | Except.error e => Except.error e
      | Except.ok ys => Except.ok (y :: ys)

/-- Embedding of `Mixture.normalise`: every component is divided by the
current total (a zero total raises a division error in Python) and a new
mixture is constructed from the results. -/
def Mixture.normalise (m : Mixture) : Except String Mixture :=
  if m.total = 0 then Except.error "division by zero"
  else
    match exceptMapParts
        (fun part => mkCompoundConcentration (part.concentration / m.total) part.compound)
        m.content with
    | Except.error e => Except.error e
    | Except.ok parts => Except.ok (Mixture.ofParts parts m.name)

/-- Embedding of `Mixture.auto_balance`: the balance concentration is
`1.0` minus every given concentration and the balance component is built
with the validating `CompoundConcentration` constructor before the mixture
is assembled. -/
def Mixture.auto_balance (content : List CompoundConcentration) (balance : Compound)
    (mname : Option String) : Except String Mixture :=
  let balanceQuantity := content.foldl (fun acc part => acc - part.concentration) 1
  match mkCompoundConcentration balanceQuantity balance with
  | Except.error e => Except.error e
  | Except.ok bc => Except.ok (Mixture.ofParts (content ++ [bc]) mname)

/-- Embedding of the `Compound.gcf` property: `None` when molecular
structure, density or specific heat is missing, otherwise
`0.3106 * ms / (density * specific_heat)`. -/
def Compound.gcf (c : Compound) : Option ℚ :=
  match c.molecular_structure, c.density, c.specific_heat with
  | some ms, some d, some sh => some (0.3106 * ms / (d * sh))
  | _, _, _ => none

/-- The `error_list` accumulated by the `Mixture.gcf` property: every
component whose compound cannot provide a gas correction factor. -/
def Mixture.gcfErrors (m : Mixture) : List CompoundConcentration :=
  m.content.filter fun part => part.compound.gcf.isNone

/-- Numerator sum of `Mixture.gcf`: `Σ cᵢ·structureᵢ`. -/
def gcfNumerator (m : Mixture) : ℚ :=
  (m.content.map fun part =>
    part.concentration * part.compound.molecular_structure.getD 0).sum

/-- Denominator sum of `Mixture.gcf`: `Σ cᵢ·densityᵢ·specific_heatᵢ`. -/
def gcfDenominator (m : Mixture) : ℚ :=
  (m.content.map fun part =>
    part.concentration * part.compound.density.getD 0 *
      part.compound.specific_heat.getD 0).sum

/-- Embedding of the `Mixture.gcf` property: raise a value error carrying
every component with missing properties, otherwise apply the GCF formula.
The missing-data branch of `getD` is unreachable in the ok branch. -/
def Mixture.gcfResult (m : Mixture) : Except (List CompoundConcentration) ℚ :=
  if m.gcfErrors.isEmpty then Except.ok (0.3106 * gcfNumerator m / gcfDenominator m)
  else Except.error m.gcfErrors

/-- The predefined `nitrogen` compound of `gasify/gas.py`. -/
def nitrogen : Compound :=
  ⟨"Nitrogen", some "N_2", some DIATOMIC, some 0.2485, some 1.25, false, 2⟩

/-- The predefined `oxygen` compound of `gasify/gas.py`. -/
def oxygen : Compound :=
  ⟨"Oxygen", some "O_2", some DIATOMIC, some 0.2193, some 1.427, false, 1⟩

/-- The `Nitric-oxides` registry compound, which has no physical constants
and therefore no gas correction factor. -/
def nitricOxides : Compound :=
  ⟨"Nitric-oxides", some "NO_x", none, none, none, true, 0⟩

/-! ## Helper notions used in theorem statements -/

/-- Sum of the concentrations of all parts bearing a given compound name. -/
def concSum (parts : List CompoundConcentration) (n : String) : ℚ :=
  ((parts.filter fun p => p.compound.name == n).map fun p => p.concentration).sum

/-- The compound names of a mixture's components, in component order. -/
def contentNames (m : Mixture) : List String :=
  m.content.map fun e => e.compound.name

/-- The `(order, name)` key order of `Compound.__lt__` lifted to mixture
components. -/
def keyLt (a b : CompoundConcentration) : Prop :=
  compoundLt a.compound b.compound

instance (a b : CompoundConcentration) : Decidable (keyLt a b) := by
  unfold keyLt
  infer_instance

/-- First value stored in the lookup table for a given compound name. -/
def lutFind (n : String) : List (Compound × ℚ) → Option ℚ
  | [] => none
  | (c, q) :: rest => if c.name = n then some q else lutFind n rest

/-- Value stored in the lookup table for a name, defaulting to 0. -/
def lutVal (n : String) (lut : List (Compound × ℚ)) : ℚ :=
  (lutFind n lut).getD 0

/-- Compound names of the lookup table, in insertion order. -/
def lutNames (lut : List (Compound × ℚ)) : List String :=
  lut.map fun e => e.1.name

/-- Sum of all values stored in the lookup table. -/
def lutSum (lut : List (Compound × ℚ)) : ℚ :=
  (lut.map fun e => e.2).sum

/-- Whether a mixture has a component for the given compound name. -/
def Mixture.hasName (m : Mixture) (n : String) : Prop :=
  n ∈ contentNames m

instance (m : Mixture) (n : String) : Decidable (m.hasName n) := by
  unfold Mixture.hasName
  infer_instance

/-- Total concentration a mixture assigns to a compound name (0 when the
compound is absent). -/
def Mixture.concOf (m : Mixture) (n : String) : ℚ :=
  concSum m.content n

/-! ## Unit layer: `gasify/unit.py` -/

/-- The dimensionless display units handled by the percent/ppm/ppb ladder
of `Quantity.to_compact`. -/
inductive CUnit where
  | percent
  | ppm
  | ppb
deriving DecidableEq

/-- Value of one display unit as a plain fraction: `percent = 1/100`,
`ppm = 1e-6`, `ppb = 1e-9` (the registry definitions). -/
def CUnit.factor : CUnit → ℚ
  | .percent => 1 / 100
  | .ppm => 1 / 1000000
  | .ppb => 1 / 1000000000

/-- Underlying fractional value of a magnitude/display-unit pair. -/
def fracValue (q : ℚ × CUnit) : ℚ := q.1 * q.2.factor

/-- Embedding of the dimensionless branch of `Quantity.to_compact`: the
four sequential rescaling rules applied to the magnitude and unit. -/
def toCompactDimensionless (q : ℚ × CUnit) : ℚ × CUnit :=
  let s1 := if q.2 = CUnit.percent ∧ q.1 < 1 / 10 then (q.1 * 10000, CUnit.ppm) else q
  let s2 := if s1.2 = CUnit.ppm ∧ s1.1 < 1 then (s1.1 * 1000, CUnit.ppb) else s1
  let s3 := if s2.2 = CUnit.ppb ∧ 1000 ≤ s2.1 then (s2.1 / 1000, CUnit.ppm) else s2
  if s3.2 = CUnit.ppm ∧ 1000 ≤ s3.1 then (s3.1 / 10000, CUnit.percent) else s3

/-- Abstract unit for the `parse` model: a dimension code (0 means
dimensionless) and a conversion scale to base units. -/
structure MUnit where
  dim : ℤ
  scale : ℚ
deriving DecidableEq

/-- Abstract quantity for the `parse` model. -/
structure MQuantity where
  mag : ℚ
  unit : MUnit
deriving DecidableEq

/-- The plain dimensionless unit. -/
def dimensionlessUnit : MUnit := ⟨0, 1⟩

/-- Error taxonomy of `gasify/unit.py` relevant to `parse`. -/
inductive UnitError where
  | parseError (msg : String)
  | incompatibleUnits (msg : String)
deriving DecidableEq

/-- Inputs accepted (or rejected) by `parse`: `None`, an existing quantity,
a bare number, a string (carrying the quantity the underlying dimensional
parser yields for it), or an unsupported type. -/
inductive ParseInput where
  | nothing
  | quantity (q : MQuantity)
  | num (x : ℚ)
  | str (q : MQuantity)
  | unsupported
deriving DecidableEq

/-- Conversion tail of `parse`: a dimensioned quantity is converted to the
target unit (failing on a dimensionality mismatch), while a unitless value
is reinterpreted as the target unit via its dimensionless magnitude. -/
def parseConvert (q : MQuantity) (toUnit : Option MUnit) : Except UnitError MQuantity :=
  match toUnit with
  | none => Except.ok q
  | some u =>
    if q.unit.dim = 0 then Except.ok ⟨q.mag * q.unit.scale, u⟩
    else if q.unit.dim = u.dim then Except.ok ⟨q.mag * q.unit.scale / u.scale, u⟩
    else Except.error (UnitError.incompatibleUnits "Unable to convert parsed quantity")

/-- Embedding of `gasify.unit.parse` with `mag_round` left at its default
`None`.  `None` input and unsupported input types raise parse errors;
numbers become plain dimensionless quantities; strings carry the quantity
produced by the underlying dimensional parser. -/
def parse (x : ParseInput) (toUnit : Option MUnit) : Except UnitError MQuantity :=
  match x with
  | .nothing => Except.error (UnitError.parseError "Cannot convert NoneType to Quantity")
  | .unsupported => Except.error (UnitError.parseError "Unsupported input type")
  | .num v => parseConvert ⟨v, dimensionlessUnit⟩ toUnit
  | .str q => parseConvert q toUnit
  | .quantity q => parseConvert q toUnit

/-! ## Humidity layer: `gasify/humidity.py` -/

/-- Critical pressure of water in MPa (`WATER_PRESSURE_CRITICAL`). -/
noncomputable def WATER_PRESSURE_CRITICAL : ℝ := 22.064

/-- Critical temperature of water in kelvin (`WATER_TEMPERATURE_CRITICAL`). -/
noncomputable def WATER_TEMPERATURE_CRITICAL : ℝ := 647.096

/-- Embedding of `_wvps_vartheta` over kelvin magnitudes. -/
noncomputable def wvpsVartheta (tK : ℝ) : ℝ := 1 - tK / WATER_TEMPERATURE_CRITICAL

/-- Embedding of `water_vp_sat_wagner_pruss` over real magnitudes: the input
temperature in kelvin is parsed to Celsius and re-expressed in kelvin by the
unit registry, then the six-term Wagner-Pruss formula is applied.  The
result is the saturation pressure magnitude in MPa. -/
noncomputable def water_vp_sat_wagner_pruss (temperatureK : ℝ) : ℝ :=
  let tC : ℝ := temperatureK - 273.15
  let tK : ℝ := tC + 273.15
  WATER_PRESSURE_CRITICAL * Real.exp (WATER_TEMPERATURE_CRITICAL / tK * (
    -7.85951783 * wvpsVartheta tK
    + 1.84408259 * wvpsVartheta tK ^ (1.5 : ℝ)
    + -11.78649 * wvpsVartheta tK ^ (3 : ℝ)
    + 22.6807411 * wvpsVartheta tK ^ (3.5 : ℝ)
    + -15.9618719 * wvpsVartheta tK ^ (4 : ℝ)
    + 1.80122502 * wvpsVartheta tK ^ (7.5 : ℝ)))

/-! ## Concrete values used by witnesses and counterexamples -/

/-- Example part list with a duplicated compound. -/
def partsEx : List CompoundConcentration :=
  [⟨1/5, oxygen⟩, ⟨1/2, nitrogen⟩, ⟨1/10, oxygen⟩]

/-- Example mixture containing a component without physical constants. -/
def mixMissingEx : Mixture :=
  Mixture.ofParts [⟨1/2, nitricOxides⟩, ⟨1/2, nitrogen⟩] none

/-- Example mixture resembling air, with full physical constants. -/
def airLikeEx : Mixture :=
  Mixture.ofParts [⟨21/100, oxygen⟩, ⟨79/100, nitrogen⟩] none

/-! ## Lookup-table lemmas -/

@[simp] theorem lutNames_nil : lutNames [] = [] := rfl

@[simp] theorem lutNames_cons (c : Compound) (q : ℚ) (rest : List (Compound × ℚ)) :
    lutNames ((c, q) :: rest) = c.name :: lutNames rest := rfl

@[simp] theorem lutNames_append (l1 l2 : List (Compound × ℚ)) :
    lutNames (l1 ++ l2) = lutNames l1 ++ lutNames l2 := by
  simp [lutNames]

@[simp] theorem lutSum_nil : lutSum [] = 0 := rfl

@[simp] theorem lutSum_cons (c : Compound) (q : ℚ) (rest : List (Compound × ℚ)) :
    lutSum ((c, q) :: rest) = q + lutSum rest := rfl

@[simp] theorem lutFind_nil (n : String) : lutFind n [] = none := rfl

theorem lutFind_cons (n : String) (c : Compound) (q : ℚ) (rest : List (Compound × ℚ)) :
    lutFind n ((c, q) :: rest) = if c.name = n then some q else lutFind n rest := rfl

@[simp] theorem insertPart_nil (p : CompoundConcentration) :
    insertPart [] p = [(p.compound, p.concentration)] := rfl

theorem insertPart_cons (c : Compound) (q : ℚ) (rest : List (Compound × ℚ))
    (p : CompoundConcentration) :
    insertPart ((c, q) :: rest) p
      = if c.name = p.compound.name then (c, q + p.concentration) :: rest
        else (c, q) :: insertPart rest p := rfl

@[simp] theorem partsSum_nil : partsSum [] = 0 := rfl

@[simp] theorem partsSum_cons (p : CompoundConcentration) (rest : List CompoundConcentration) :
    partsSum (p :: rest) = p.concentration + partsSum rest := rfl

@[simp] theorem partsSum_append (l1 l2 : List CompoundConcentration) :
    partsSum (l1 ++ l2) = partsSum l1 + partsSum l2 := by
  simp [partsSum]

theorem concSum_cons (p : CompoundConcentration) (rest : List CompoundConcentration)
    (n : String) :
    concSum (p :: rest) n
      = if p.compound.name = n then p.concentration + concSum rest n else concSum rest n := by
  by_cases h : p.compound.name = n
  · simp [concSum, List.filter_cons, h]
  · simp [concSum, List.filter_cons, h]

@[simp] theorem concSum_nil (n : String) : concSum [] n = 0 := rfl

@[simp] theorem concSum_append (l1 l2 : List CompoundConcentration) (n : String) :
    concSum (l1 ++ l2) n = concSum l1 n + concSum l2 n := by
  simp [concSum]

theorem concSum_eq_zero_of_not_mem {l : List CompoundConcentration} {n : String}
    (h : n ∉ l.map fun p => p.compound.name) : concSum l n = 0 := by
  induction l with
  | nil => rfl
  | cons p rest ih =>
    simp only [List.map_cons, List.mem_cons, not_or] at h
    rw [concSum_cons, if_neg (fun h' => h.1 h'.symm)]
    exact ih h.2

theorem concSum_nonneg {l : List CompoundConcentration} {n : String}
    (h : ∀ p ∈ l, 0 ≤ p.concentration) : 0 ≤ concSum l n := by
  induction l with
  | nil => simp
  | cons p rest ih =>
    have hr := ih fun x hx => h x (List.mem_cons_of_mem _ hx)
    have hp := h p (List.mem_cons_self _ _)
    rw [concSum_cons]
    by_cases hn : p.compound.name = n
    · rw [if_pos hn]; positivity
    · rwa [if_neg hn]

theorem concSum_perm {l1 l2 : List CompoundConcentration} (h : l1.Perm l2) (n : String) :
    concSum l1 n = concSum l2 n := by
  unfold concSum
  exact ((h.filter _).map _).sum_eq

theorem partsSum_perm {l1 l2 : List CompoundConcentration} (h : l1.Perm l2) :
    partsSum l1 = partsSum l2 := by
  unfold partsSum
  exact (h.map _).sum_eq

theorem name_mem_of_mem {lut : List (Compound × ℚ)} {c : Compound} {q : ℚ}
    (h : (c, q) ∈ lut) : c.name ∈ lutNames lut := by
  simp only [lutNames, List.mem_map]
  exact ⟨(c, q), h, rfl⟩

theorem exists_mem_of_name_mem {lut : List (Compound × ℚ)} {n : String}
    (h : n ∈ lutNames lut) : ∃ e ∈ lut, e.1.name = n := by
  simp only [lutNames, List.mem_map] at h
  obtain ⟨e, he, hn⟩ := h
  exact ⟨e, he, hn⟩

theorem lutFind_eq_none {lut : List (Compound × ℚ)} {n : String}
    (h : n ∉ lutNames lut) : lutFind n lut = none := by
  induction lut with
  | nil => rfl
  | cons e rest ih =>
    obtain ⟨c, q⟩ := e
    rw [lutNames_cons, List.mem_cons, not_or] at h
    rw [lutFind_cons, if_neg fun hc => h.1 hc.symm]
    exact ih h.2

theorem lutFind_of_mem_nodup {lut : List (Compound × ℚ)} {c : Compound} {q : ℚ}
    (hnd : (lutNames lut).Nodup) (h : (c, q) ∈ lut) : lutFind c.name lut = some q := by
  induction lut with
  | nil => simp at h
  | cons e rest ih =>
    obtain ⟨c', q'⟩ := e
    rw [lutNames_cons, List.nodup_cons] at hnd
    rcases List.mem_cons.1 h with h' | h'
    · obtain ⟨rfl, rfl⟩ := Prod.mk.injEq .. ▸ h'
      simp [lutFind_cons]
    · have hne : c'.name ≠ c.name := fun hcontra => hnd.1 (hcontra ▸ name_mem_of_mem h')
      rw [lutFind_cons, if_neg hne]
      exact ih hnd.2 h'

theorem insertPart_find_self (lut : List (Compound × ℚ)) (p : CompoundConcentration) :
    lutFind p.compound.name (insertPart lut p)
      = some (lutVal p.compound.name lut + p.concentration) := by
  induction lut with
  | nil => simp [lutFind_cons, lutVal]
  | cons e rest ih =>
    obtain ⟨c, q⟩ := e
    rw [insertPart_cons]
    by_cases h : c.name = p.compound.name
    · simp [h, lutFind_cons, lutVal]
    · simp [h, lutFind_cons, lutVal, ih]

theorem insertPart_find_ne (lut : List (Compound × ℚ)) (p : CompoundConcentration)
    (n : String) (h : n ≠ p.compound.name) :
    lutFind n (insertPart lut p) = lutFind n lut := by
  have h' : ¬p.compound.name = n := fun hc => h hc.symm
  induction lut with
  | nil => simp [lutFind_cons, h']
  | cons e rest ih =>
    obtain ⟨c, q⟩ := e
    rw [insertPart_cons]
    by_cases hc : c.name = p.compound.name
    · have hcn : ¬c.name = n := fun h2 => h' (hc ▸ h2)
      rw [if_pos hc, lutFind_cons, if_neg hcn, lutFind_cons, if_neg hcn]
    · by_cases hcn : c.name = n
      · rw [if_neg hc, lutFind_cons, if_pos hcn, lutFind_cons, if_pos hcn]
      · rw [if_neg hc, lutFind_cons, if_neg hcn, lutFind_cons, if_neg hcn]
        exact ih

theorem insertPart_names (lut : List (Compound × ℚ)) (p : CompoundConcentration) :
    lutNames (insertPart lut p)
      = if p.compound.name ∈ lutNames lut then lutNames lut
        else lutNames lut ++ [p.compound.name] := by
  induction lut with
  | nil => simp
  | cons e rest ih =>
    obtain ⟨c, q⟩ := e
    rw [insertPart_cons]
    by_cases h : c.name = p.compound.name
    · rw [if_pos h, lutNames_cons, lutNames_cons,
        if_pos (List.mem_cons.2 (Or.inl h.symm))]
    · have hps : p.compound.name ≠ c.name := fun h2 => h h2.symm
      rw [if_neg h, lutNames_cons, ih, lutNames_cons]
      by_cases hmem : p.compound.name ∈ lutNames rest
      · rw [if_pos hmem, if_pos (List.mem_cons.2 (Or.inr hmem))]
      · rw [if_neg hmem, if_neg (by simp [List.mem_cons, hps, hmem]), List.cons_append]

theorem mem_insertPart_names (lut : List (Compound × ℚ)) (p : CompoundConcentration)
    (n : String) :
    n ∈ lutNames (insertPart lut p) ↔ n ∈ lutNames lut ∨ n = p.compound.name := by
  rw [insertPart_names]
  by_cases h : p.compound.name ∈ lutNames lut
  · rw [if_pos h]
    constructor
    · exact Or.inl
    · rintro (h' | rfl)
      · exact h'
      · exact h
  · rw [if_neg h]
    simp

theorem insertPart_names_nodup (lut : List (Compound × ℚ)) (p : CompoundConcentration)
    (h : (lutNames lut).Nodup) : (lutNames (insertPart lut p)).Nodup := by
  rw [insertPart_names]
  by_cases hmem : p.compound.name ∈ lutNames lut
  · rwa [if_pos hmem]
  · rw [if_neg hmem]
    simp [List.nodup_append, h, hmem]

theorem insertPart_sum (lut : List (Compound × ℚ)) (p : CompoundConcentration) :
    lutSum (insertPart lut p) = lutSum lut + p.concentration := by
  induction lut with
  | nil => simp
  | cons e rest ih =>
    obtain ⟨c, q⟩ := e
    rw [insertPart_cons]
    by_cases h : c.name = p.compound.name
    · rw [if_pos h, lutSum_cons, lutSum_cons]
      ring
    · rw [if_neg h, lutSum_cons, lutSum_cons, ih]
      ring

theorem insertPart_compounds {lut : List (Compound × ℚ)} {p : CompoundConcentration}
    {c : Compound} (h : c ∈ (insertPart lut p).map Prod.fst) :
    c ∈ lut.map Prod.fst ∨ c = p.compound := by
  induction lut with
  | nil =>
    simp at h
    exact Or.inr h
  | cons e rest ih =>
    obtain ⟨c', q'⟩ := e
    rw [insertPart_cons] at h
    by_cases h' : c'.name = p.compound.name
    · rw [if_pos h'] at h
      simp only [List.map_cons, List.mem_cons] at h ⊢
      exact Or.inl h
    · rw [if_neg h'] at h
      simp only [List.map_cons, List.mem_cons] at h ⊢
      rcases h with h | h
      · exact Or.inl (Or.inl h)
      · rcases ih h with h2 | h2
        · exact Or.inl (Or.inr h2)
        · exact Or.inr h2

/-! ## Grouping (foldl) lemmas -/

theorem foldl_insertPart_val (parts : List CompoundConcentration) :
    ∀ (acc : List (Compound × ℚ)) (n : String),
      lutVal n (parts.foldl insertPart acc) = lutVal n acc + concSum parts n := by
  induction parts with
  | nil => intro acc n; simp
  | cons p rest ih =>
    intro acc n
    rw [List.foldl_cons, ih, concSum_cons]
    by_cases h : p.compound.name = n
    · have h2 : lutVal n (insertPart acc p) = lutVal n acc + p.concentration := by
        rw [← h, lutVal, insertPart_find_self]
        rfl
      rw [if_pos h, h2]
      ring
    · have h2 : lutVal n (insertPart acc p) = lutVal n acc := by
        rw [lutVal, insertPart_find_ne _ _ _ fun hc => h hc.symm]
        rfl
      rw [if_neg h, h2]

theorem foldl_insertPart_names_mem (parts : List CompoundConcentration) :
    ∀ (acc : List (Compound × ℚ)) (n : String),
      n ∈ lutNames (parts.foldl insertPart acc)
        ↔ n ∈ lutNames acc ∨ n ∈ parts.map fun p => p.compound.name := by
  induction parts with
  | nil => intro acc n; simp
  | cons p rest ih =>
    intro acc n
    rw [List.foldl_cons, ih, mem_insertPart_names, List.map_cons, List.mem_cons]
    tauto

theorem foldl_insertPart_nodup (parts : List CompoundConcentration) :
    ∀ acc, (lutNames acc).Nodup → (lutNames (parts.foldl insertPart acc)).Nodup := by
  induction parts with
  | nil => intro acc h; exact h
  | cons p rest ih =>
    intro acc h
    rw [List.foldl_cons]
    exact ih _ (insertPart_names_nodup _ _ h)

theorem foldl_insertPart_sum (parts : List CompoundConcentration) :
    ∀ acc, lutSum (parts.foldl insertPart acc) = lutSum acc + partsSum parts := by
  induction parts with
  | nil => intro acc; simp
  | cons p rest ih =>
    intro acc
    rw [List.foldl_cons, ih, insertPart_sum, partsSum_cons]
    ring

theorem foldl_insertPart_compounds (parts : List CompoundConcentration) :
    ∀ acc c, c ∈ (parts.foldl insertPart acc).map Prod.fst
      → c ∈ acc.map Prod.fst ∨ c ∈ parts.map fun p => p.compound := by
  induction parts with
  | nil => intro acc c h; exact Or.inl h
  | cons p rest ih =>
    intro acc c h
    rw [List.foldl_cons] at h
    rcases ih _ _ h with h2 | h2
    · rcases insertPart_compounds h2 with h3 | h3
      · exact Or.inl h3
      · exact Or.inr (by simp [h3])
    · exact Or.inr (by simp [h2])

theorem partsLut_val (parts : List CompoundConcentration) (n : String) :
    lutVal n (partsLut parts) = concSum parts n := by
  have h := foldl_insertPart_val parts [] n
  rw [partsLut, h, lutVal, lutFind_nil]
  simp

theorem partsLut_names_mem (parts : List CompoundConcentration) (n : String) :
    n ∈ lutNames (partsLut parts) ↔ n ∈ parts.map fun p => p.compound.name := by
  rw [partsLut, foldl_insertPart_names_mem parts [] n]
  simp

theorem partsLut_nodup (parts : List CompoundConcentration) :
    (lutNames (partsLut parts)).Nodup :=
  foldl_insertPart_nodup parts [] (by simp)

theorem partsLut_sum (parts : List CompoundConcentration) :
    lutSum (partsLut parts) = partsSum parts := by
  rw [partsLut, foldl_insertPart_sum parts []]
  simp

theorem partsLut_compounds {parts : List CompoundConcentration} {c : Compound}
    (h : c ∈ (partsLut parts).map Prod.fst) : c ∈ parts.map fun p => p.compound := by
  rcases foldl_insertPart_compounds parts [] c h with h2 | h2
  · simp at h2
  · exact h2

/-! ## Sort lemmas -/

@[simp] theorem sortParts_nil : sortParts [] = [] := rfl

theorem sortParts_cons (x : CompoundConcentration) (xs : List CompoundConcentration) :
    sortParts (x :: xs) = sortInsert x (sortParts xs) := rfl

@[simp] theorem sortInsert_nil (x : CompoundConcentration) : sortInsert x [] = [x] := rfl

theorem sortInsert_cons (x y : CompoundConcentration) (ys : List CompoundConcentration) :
    sortInsert x (y :: ys) = if ccLtB x y then x :: y :: ys else y :: sortInsert x ys := rfl

theorem sortInsert_perm (x : CompoundConcentration) (l : List CompoundConcentration) :
    (sortInsert x l).Perm (x :: l) := by
  induction l with
  | nil => exact List.Perm.refl _
  | cons y ys ih =>
    rw [sortInsert_cons]
    by_cases h : ccLtB x y = true
    · rw [if_pos h]
    · rw [if_neg h]
      exact List.Perm.trans (List.Perm.cons y ih) (List.Perm.swap x y ys)

theorem sortParts_perm (l : List CompoundConcentration) : (sortParts l).Perm l := by
  induction l with
  | nil => exact List.Perm.refl _
  | cons x xs ih =>
    rw [sortParts_cons]
    exact (sortInsert_perm x (sortParts xs)).trans (List.Perm.cons x ih)

theorem compoundLt_trans {a b c : Compound}
    (h1 : compoundLt a b) (h2 : compoundLt b c) : compoundLt a c := by
  rcases h1 with h1 | ⟨h1, h1n⟩ <;> rcases h2 with h2 | ⟨h2, h2n⟩
  · exact Or.inl (lt_trans h1 h2)
  · exact Or.inl (h2 ▸ h1)
  · exact Or.inl (h1 ▸ h2)
  · exact Or.inr ⟨h1.trans h2, lt_trans h1n h2n⟩

theorem compoundLt_total_of_ne {a b : Compound} (h : a.name ≠ b.name) :
    compoundLt a b ∨ compoundLt b a := by
  rcases lt_trichotomy a.order b.order with h2 | h2 | h2
  · exact Or.inl (Or.inl h2)
  · rcases lt_trichotomy a.name b.name with h3 | h3 | h3
    · exact Or.inl (Or.inr ⟨h2, h3⟩)
    · exact absurd h3 h
    · exact Or.inr (Or.inr ⟨h2.symm, h3⟩)
  · exact Or.inr (Or.inl h2)

theorem keyLt_trans {a b c : CompoundConcentration}
    (h1 : keyLt a b) (h2 : keyLt b c) : keyLt a c :=
  compoundLt_trans h1 h2

theorem ccLtB_iff_of_ne {a b : CompoundConcentration}
    (h : a.compound.name ≠ b.compound.name) :
    ccLtB a b = true ↔ keyLt a b := by
  rw [ccLtB, if_neg h]
  unfold keyLt
  simp

theorem sortInsert_pairwise {x : CompoundConcentration} {l : List CompoundConcentration}
    (hl : l.Pairwise keyLt) (hx : ∀ y ∈ l, x.compound.name ≠ y.compound.name) :
    (sortInsert x l).Pairwise keyLt := by
  induction l with
  | nil => simp
  | cons y ys ih =>
    have hxy : x.compound.name ≠ y.compound.name := hx y (List.mem_cons_self _ _)
    rw [List.pairwise_cons] at hl
    rw [sortInsert_cons]
    by_cases h : ccLtB x y = true
    · rw [if_pos h, List.pairwise_cons]
      have hk : keyLt x y := (ccLtB_iff_of_ne hxy).1 h
      refine ⟨?_, ?_⟩
      · intro z hz
        rcases List.mem_cons.1 hz with rfl | hz2
        · exact hk
        · exact keyLt_trans hk (hl.1 z hz2)
      · rw [List.pairwise_cons]
        exact hl
    · rw [if_neg h, List.pairwise_cons]
      have hyx : keyLt y x := by
        rcases compoundLt_total_of_ne hxy with h2 | h2
        · exact absurd ((ccLtB_iff_of_ne hxy).2 h2) h
        · exact h2
      refine ⟨?_, ih hl.2 fun z hz => hx z (List.mem_cons_of_mem _ hz)⟩
      intro z hz
      rcases List.mem_cons.1 ((sortInsert_perm x ys).mem_iff.1 hz) with rfl | hz2
      · exact hyx
      · exact hl.1 z hz2

theorem sortParts_pairwise {l : List CompoundConcentration}
    (h : (l.map fun p => p.compound.name).Nodup) :
    (sortParts l).Pairwise keyLt := by
  induction l with
  | nil => simp
  | cons x xs ih =>
    rw [List.map_cons, List.nodup_cons] at h
    rw [sortParts_cons]
    apply sortInsert_pairwise (ih h.2)
    intro y hy
    have hyxs : y ∈ xs := (sortParts_perm xs).mem_iff.1 hy
    intro hcontra
    exact h.1 (by rw [hcontra]; exact List.mem_map.2 ⟨y, hyxs, rfl⟩)

theorem sortParts_sorted_id {l : List CompoundConcentration}
    (hp : l.Pairwise keyLt)
    (hn : (l.map fun p => p.compound.name).Nodup) :
    sortParts l = l := by
  induction l with
  | nil => rfl
  | cons x xs ih =>
    rw [List.pairwise_cons] at hp
    rw [List.map_cons, List.nodup_cons] at hn
    rw [sortParts_cons, ih hp.2 hn.2]
    cases xs with
    | nil => rfl
    | cons y ys =>
      have hxy : x.compound.name ≠ y.compound.name := by
        intro hc
        exact hn.1 (by rw [hc]; exact List.mem_map.2 ⟨y, List.mem_cons_self _ _, rfl⟩)
      rw [sortInsert_cons,
        if_pos ((ccLtB_iff_of_ne hxy).2 (hp.1 y (List.mem_cons_self _ _)))]

/-! ## Mixture content lemmas -/

@[simp] theorem lutEntries_nil : lutEntries [] = [] := rfl

@[simp] theorem lutEntries_cons (c : Compound) (q : ℚ) (rest : List (Compound × ℚ)) :
    lutEntries ((c, q) :: rest) = ⟨q, c⟩ :: lutEntries rest := rfl

theorem lutEntries_names (lut : List (Compound × ℚ)) :
    ((lutEntries lut).map fun e => e.compound.name) = lutNames lut := by
  induction lut with
  | nil => rfl
  | cons e rest ih =>
    obtain ⟨c, q⟩ := e
    rw [lutEntries_cons, List.map_cons, lutNames_cons, ih]

theorem lutEntries_sum (lut : List (Compound × ℚ)) :
    partsSum (lutEntries lut) = lutSum lut := by
  induction lut with
  | nil => rfl
  | cons e rest ih =>
    obtain ⟨c, q⟩ := e
    rw [lutEntries_cons, partsSum_cons, lutSum_cons, ih]

theorem mem_lutEntries {lut : List (Compound × ℚ)} {e : CompoundConcentration} :
    e ∈ lutEntries lut ↔ (e.compound, e.concentration) ∈ lut := by
  constructor
  · intro h
    obtain ⟨⟨c, q⟩, hm, rfl⟩ := List.mem_map.1 h
    exact hm
  · intro h
    exact List.mem_map.2 ⟨(e.compound, e.concentration), h, rfl⟩

theorem mem_mixtureContent {parts : List CompoundConcentration}
    {e : CompoundConcentration} :
    e ∈ mixtureContent parts ↔ (e.compound, e.concentration) ∈ partsLut parts := by
  unfold mixtureContent
  rw [(sortParts_perm _).mem_iff]
  exact mem_lutEntries

theorem mixtureContent_names_nodup (parts : List CompoundConcentration) :
    ((mixtureContent parts).map fun e => e.compound.name).Nodup := by
  unfold mixtureContent
  have hperm := (sortParts_perm (lutEntries (partsLut parts))).map
    fun e => e.compound.name
  exact hperm.nodup_iff.2 (lutEntries_names _ ▸ partsLut_nodup parts)

theorem mixtureContent_pairwise (parts : List CompoundConcentration) :
    (mixtureContent parts).Pairwise keyLt := by
  unfold mixtureContent
  apply sortParts_pairwise
  rw [lutEntries_names]
  exact partsLut_nodup parts

theorem mixtureContent_conc {parts : List CompoundConcentration}
    {e : CompoundConcentration} (h : e ∈ mixtureContent parts) :
    e.concentration = concSum parts e.compound.name := by
  have hmem := mem_mixtureContent.1 h
  have hfind := lutFind_of_mem_nodup (partsLut_nodup parts) hmem
  have hval := partsLut_val parts e.compound.name
  rw [lutVal, hfind] at hval
  simpa using hval

theorem mixtureContent_name_mem (parts : List CompoundConcentration) (n : String) :
    (n ∈ (mixtureContent parts).map fun e => e.compound.name)
      ↔ n ∈ parts.map fun p => p.compound.name := by
  unfold mixtureContent
  rw [((sortParts_perm (lutEntries (partsLut parts))).map fun e => e.compound.name).mem_iff,
    lutEntries_names]
  exact partsLut_names_mem parts n

theorem mixtureContent_sum (parts : List CompoundConcentration) :
    partsSum (mixtureContent parts) = partsSum parts := by
  unfold mixtureContent
  rw [partsSum_perm (sortParts_perm _), lutEntries_sum, partsLut_sum]

theorem exists_entry_of_name_mem {parts : List CompoundConcentration} {n : String}
    (h : n ∈ parts.map fun p => p.compound.name) :
    ∃ e ∈ mixtureContent parts, e.compound.name = n := by
  have h2 : n ∈ lutNames (partsLut parts) := (partsLut_names_mem parts n).2 h
  obtain ⟨⟨c, q⟩, hm, hn⟩ := exists_mem_of_name_mem h2
  exact ⟨⟨q, c⟩, mem_mixtureContent.2 hm, hn⟩

theorem concSum_lutEntries {lut : List (Compound × ℚ)} {n : String}
    (hnd : (lutNames lut).Nodup) :
    concSum (lutEntries lut) n = lutVal n lut := by
  induction lut with
  | nil => simp [lutVal]
  | cons e rest ih =>
    obtain ⟨c, q⟩ := e
    rw [lutNames_cons, List.nodup_cons] at hnd
    rw [lutEntries_cons, concSum_cons, lutVal, lutFind_cons]
    by_cases h : c.name = n
    · rw [if_pos h, if_pos h]
      have hzero : concSum (lutEntries rest) n = 0 := by
        apply concSum_eq_zero_of_not_mem
        rw [lutEntries_names, ← h]
        exact hnd.1
      rw [hzero]
      simp
    · rw [if_neg h, if_neg h, ih hnd.2, lutVal]

theorem concSum_mixtureContent (parts : List CompoundConcentration) (n : String) :
    concSum (mixtureContent parts) n = concSum parts n := by
  unfold mixtureContent
  rw [concSum_perm (sortParts_perm _), concSum_lutEntries (partsLut_nodup parts),
    partsLut_val]

/-! ## Identity and normalisation helper lemmas -/

theorem ofParts_content (parts : List CompoundConcentration) (mname : Option String) :
    (Mixture.ofParts parts mname).content = mixtureContent parts := rfl

theorem ofParts_name (parts : List CompoundConcentration) (mname : Option String) :
    (Mixture.ofParts parts mname).name = mname := rfl

theorem ofParts_hasName (parts : List CompoundConcentration) (mname : Option String)
    (n : String) :
    (Mixture.ofParts parts mname).hasName n ↔ n ∈ parts.map fun p => p.compound.name := by
  unfold Mixture.hasName contentNames
  rw [ofParts_content]
  exact mixtureContent_name_mem parts n

theorem ofParts_concOf (parts : List CompoundConcentration) (mname : Option String)
    (n : String) :
    (Mixture.ofParts parts mname).concOf n = concSum parts n := by
  unfold Mixture.concOf
  rw [ofParts_content]
  exact concSum_mixtureContent parts n

theorem insertPart_append {lut : List (Compound × ℚ)} {p : CompoundConcentration}
    (h : p.compound.name ∉ lutNames lut) :
    insertPart lut p = lut ++ [(p.compound, p.concentration)] := by
  induction lut with
  | nil => simp
  | cons e rest ih =>
    obtain ⟨c, q⟩ := e
    rw [lutNames_cons, List.mem_cons, not_or] at h
    rw [insertPart_cons, if_neg fun hc => h.1 hc.symm, ih h.2, List.cons_append]

theorem foldl_insertPart_of_disjoint (l : List CompoundConcentration) :
    ∀ acc, (∀ x ∈ l, x.compound.name ∉ lutNames acc) →
      ((l.map fun p => p.compound.name).Nodup) →
      l.foldl insertPart acc = acc ++ l.map fun p => (p.compound, p.concentration) := by
  induction l with
  | nil => intro acc h1 h2; simp
  | cons p rest ih =>
    intro acc hdisj hnd
    rw [List.map_cons, List.nodup_cons] at hnd
    have hstep : ∀ x ∈ rest,
        x.compound.name ∉ lutNames (acc ++ [(p.compound, p.concentration)]) := by
      intro x hx
      rw [lutNames_append, List.mem_append, not_or]
      refine ⟨hdisj x (List.mem_cons_of_mem _ hx), ?_⟩
      rw [lutNames_cons, lutNames_nil]
      simp only [List.mem_singleton]
      intro hc
      exact hnd.1 (hc ▸ List.mem_map.2 ⟨x, hx, rfl⟩)
    rw [List.foldl_cons, insertPart_append (hdisj p (List.mem_cons_self _ _)),
      ih _ hstep hnd.2, List.map_cons]
    simp

theorem partsLut_id {l : List CompoundConcentration}
    (h : (l.map fun p => p.compound.name).Nodup) :
    partsLut l = l.map fun p => (p.compound, p.concentration) := by
  rw [partsLut, foldl_insertPart_of_disjoint l [] (by simp) h]
  simp

theorem lutEntries_map_self (l : List CompoundConcentration) :
    lutEntries (l.map fun p => (p.compound, p.concentration)) = l := by
  induction l with
  | nil => rfl
  | cons p rest ih => rw [List.map_cons, lutEntries_cons, ih]

theorem mixtureContent_id {l : List CompoundConcentration}
    (hn : (l.map fun p => p.compound.name).Nodup)
    (hp : l.Pairwise keyLt) :
    mixtureContent l = l := by
  unfold mixtureContent
  rw [partsLut_id hn, lutEntries_map_self, sortParts_sorted_id hp hn]

theorem exceptMapParts_ok
    {f : CompoundConcentration → Except String CompoundConcentration}
    {g : CompoundConcentration → CompoundConcentration}
    {l : List CompoundConcentration}
    (h : ∀ x ∈ l, f x = Except.ok (g x)) :
    exceptMapParts f l = Except.ok (l.map g) := by
  induction l with
  | nil => rfl
  | cons x xs ih =>
    rw [exceptMapParts, h x (List.mem_cons_self _ _),
      ih fun y hy => h y (List.mem_cons_of_mem _ hy), List.map_cons]

theorem normalise_eq {m : Mixture} {s : ℚ} (hs : m.total = s)
    (h0 : ∀ e ∈ m.content, 0 ≤ e.concentration) (hpos : 0 < s) :
    m.normalise = Except.ok
      (Mixture.ofParts (m.content.map fun e => ⟨e.concentration / s, e.compound⟩)
        m.name) := by
  subst hs
  rw [Mixture.normalise, if_neg (ne_of_gt hpos)]
  rw [exceptMapParts_ok (g := fun e => ⟨e.concentration / m.total, e.compound⟩) ?h]
  case h =>
    intro x hx
    rw [mkCompoundConcentration, if_neg (not_lt.2 (div_nonneg (h0 x hx) hpos.le))]

theorem map_div_one (l : List CompoundConcentration) :
    (l.map fun e => (⟨e.concentration / 1, e.compound⟩ : CompoundConcentration)) = l := by
  induction l with
  | nil => rfl
  | cons x xs ih => rw [List.map_cons, ih, div_one]

theorem foldl_sub_eq (parts : List CompoundConcentration) :
    ∀ init : ℚ, parts.foldl (fun acc part => acc - part.concentration) init
      = init - partsSum parts := by
  induction parts with
  | nil => intro init; simp
  | cons p rest ih =>
    intro init
    rw [List.foldl_cons, ih, partsSum_cons]
    ring

theorem partsSum_scale (l : List CompoundConcentration) (s : ℚ) :
    partsSum (l.map fun e => (⟨e.concentration / s, e.compound⟩ : CompoundConcentration))
      = partsSum l / s := by
  induction l with
  | nil => simp
  | cons p rest ih =>
    rw [List.map_cons, partsSum_cons, partsSum_cons, ih, add_div]

/-! ## Claim theorems -/

/-- C1 (counterexample): as stated, the auto-balance claim fails when the
balance compound already occurs among the given components.  With the single
component `0.5 Nitrogen` and balance `nitrogen`, the sum is `s = 1/2 ≤ 1`,
but the resulting mixture's only nitrogen component has concentration `1`,
not `1 - s = 1/2` (the grouping step merged the two nitrogen entries). -/
theorem C1_counterexample :
    Mixture.auto_balance [⟨1/2, nitrogen⟩] nitrogen none
        = Except.ok (Mixture.mk [⟨1, nitrogen⟩] none)
      ∧ partsSum [⟨1/2, nitrogen⟩] ≤ 1
      ∧ (1 : ℚ) ≠ 1 - partsSum [⟨1/2, nitrogen⟩] := by
  refine ⟨?_, by norm_num, by norm_num⟩
  norm_num [Mixture.auto_balance, mkCompoundConcentration, Mixture.ofParts, mixtureContent,
    partsLut, insertPart, lutEntries, sortParts, sortInsert, ccLtB, compoundLt, nitrogen]

/-- C1 (amended): for components summing to `s ≤ 1` whose compounds are all
distinct from the balance compound, `auto_balance` succeeds and returns a
mixture containing a component for the balance compound with concentration
exactly `1 - s`, and the component concentrations of the result sum to
exactly `1` (hence to `1.0` within `1e-12`). -/
theorem C1_auto_balance (parts : List CompoundConcentration) (b : Compound)
    (hs : partsSum parts ≤ 1)
    (hb : ∀ p ∈ parts, p.compound.name ≠ b.name) :
    ∃ m : Mixture, Mixture.auto_balance parts b none = Except.ok m
      ∧ (∃ e ∈ m.content, e.compound.name = b.name
          ∧ e.concentration = 1 - partsSum parts)
      ∧ m.total = 1 := by
  have hok : mkCompoundConcentration (1 - partsSum parts) b
      = Except.ok ⟨1 - partsSum parts, b⟩ := by
    rw [mkCompoundConcentration, if_neg (not_lt.2 (by linarith))]
  refine ⟨Mixture.ofParts
      (parts ++ [(⟨1 - partsSum parts, b⟩ : CompoundConcentration)]) none, ?_, ?_, ?_⟩
  · rw [Mixture.auto_balance, foldl_sub_eq, hok]
  · have hmem : b.name ∈ (parts ++ [(⟨1 - partsSum parts, b⟩ : CompoundConcentration)]).map
        (fun p => p.compound.name) := by
      rw [List.map_append]
      exact List.mem_append.2 (Or.inr (by simp))
    obtain ⟨e, he, hname⟩ := exists_entry_of_name_mem hmem
    refine ⟨e, he, hname, ?_⟩
    have hconc := mixtureContent_conc he
    rw [hname] at hconc
    have h0 : concSum parts b.name = 0 := by
      apply concSum_eq_zero_of_not_mem
      intro hc
      obtain ⟨p, hp, hpn⟩ := List.mem_map.1 hc
      exact hb p hp hpn
    rw [hconc, concSum_append, h0, concSum_cons]
    simp
  · show partsSum (mixtureContent
      (parts ++ [(⟨1 - partsSum parts, b⟩ : CompoundConcentration)])) = 1
    rw [mixtureContent_sum, partsSum_append, partsSum_cons, partsSum_nil]
    show partsSum parts + (1 - partsSum parts + 0) = 1
    ring

/-- Witness for C1: a concrete oxygen component balanced with nitrogen
produces a mixture. -/
theorem C1_witness :
    (Mixture.auto_balance [⟨1/5, oxygen⟩] nitrogen none).toOption.isSome = true := by
  obtain ⟨m, h1, -, -⟩ := C1_auto_balance [⟨1/5, oxygen⟩] nitrogen
    (by norm_num) (by decide)
  rw [h1]
  rfl

/-- C2 (counterexample): with components summing to `3/2 > 1`,
`auto_balance` does raise the non-negative-concentration value error instead
of returning a mixture with a negative balance component. -/
theorem C2_counterexample :
    Mixture.auto_balance [⟨3/2, oxygen⟩] nitrogen none
      = Except.error "Gas concentration cannot be below zero" := by
  simp only [Mixture.auto_balance, List.foldl_cons, List.foldl_nil,
    mkCompoundConcentration]
  norm_num

/-- C2 (amended): whenever the given components sum to more than `1`, the
computed balance concentration `1 - s` is negative, so the
`CompoundConcentration` constructor called by `auto_balance` raises the
"Gas concentration cannot be below zero" value error and no mixture is
produced. -/
theorem C2_auto_balance_raises (parts : List CompoundConcentration) (b : Compound)
    (mname : Option String) (hs : 1 < partsSum parts) :
    Mixture.auto_balance parts b mname
      = Except.error "Gas concentration cannot be below zero" := by
  have hneg : (1 : ℚ) - partsSum parts < 0 := by linarith
  rw [Mixture.auto_balance, foldl_sub_eq, mkCompoundConcentration, if_pos hneg]

/-- Witness for C2: an over-specified nitrogen component raises the error. -/
theorem C2_witness :
    Mixture.auto_balance [⟨2, nitrogen⟩] oxygen (some "over")
      = Except.error "Gas concentration cannot be below zero" :=
  C2_auto_balance_raises [⟨2, nitrogen⟩] oxygen (some "over") (by norm_num)

/-- C3: the `Mixture` constructor produces one component per distinct
compound name, each carrying the sum of the concentrations of all parts
with that compound, covering exactly the compounds of the parts, with the
result sorted strictly ascending by the `(order, name)` compound key. -/
theorem C3_mixture_constructor (parts : List CompoundConcentration) :
    (∀ e ∈ (Mixture.ofParts parts none).content,
        e.concentration = concSum parts e.compound.name)
  ∧ (∀ p ∈ parts, ∃ e ∈ (Mixture.ofParts parts none).content,
        e.compound.name = p.compound.name)
  ∧ (∀ e ∈ (Mixture.ofParts parts none).content,
        e.compound.name ∈ parts.map fun p => p.compound.name)
  ∧ (contentNames (Mixture.ofParts parts none)).Nodup
  ∧ (Mixture.ofParts parts none).content.Pairwise keyLt := by
  refine ⟨?_, ?_, ?_, ?_, ?_⟩
  · intro e he
    exact mixtureContent_conc he
  · intro p hp
    exact exists_entry_of_name_mem (List.mem_map.2 ⟨p, hp, rfl⟩)
  · intro e he
    exact (mixtureContent_name_mem parts e.compound.name).1 (List.mem_map.2 ⟨e, he, rfl⟩)
  · exact mixtureContent_names_nodup parts
  · exact mixtureContent_pairwise parts

/-- Witness for C3: a concrete part list with a duplicated compound yields
distinct, key-sorted components. -/
theorem C3_witness :
    (contentNames (Mixture.ofParts partsEx none)).Nodup
  ∧ (Mixture.ofParts partsEx none).content.Pairwise keyLt :=
  ⟨(C3_mixture_constructor partsEx).2.2.2.1, (C3_mixture_constructor partsEx).2.2.2.2⟩

/-- C4: combining with `+` is commutative for compound concentrations and
for mixtures: both operand orders give mixtures with the same component
names and the same concentration for every compound name. -/
theorem C4_add_commutative :
    (∀ a b : CompoundConcentration, ∀ n : String,
      ((ccAdd a b).hasName n ↔ (ccAdd b a).hasName n)
        ∧ (ccAdd a b).concOf n = (ccAdd b a).concOf n)
  ∧ (∀ A B : Mixture, ∀ n : String,
      ((A.add B).hasName n ↔ (B.add A).hasName n)
        ∧ (A.add B).concOf n = (B.add A).concOf n) := by
  constructor
  · intro a b n
    constructor
    · rw [ccAdd, ccAdd, ofParts_hasName, ofParts_hasName]
      simp [or_comm]
    · rw [ccAdd, ccAdd, ofParts_concOf, ofParts_concOf]
      show concSum ([a] ++ [b]) n = concSum ([b] ++ [a]) n
      rw [concSum_append, concSum_append, add_comm]
  · intro A B n
    constructor
    · rw [Mixture.add, Mixture.add, ofParts_hasName, ofParts_hasName]
      simp [or_comm]
    · rw [Mixture.add, Mixture.add, ofParts_concOf, ofParts_concOf,
        concSum_append, concSum_append, add_comm]

/-- Witness for C4: concrete oxygen/nitrogen concentrations added in both
orders carry the same oxygen concentration. -/
theorem C4_witness :
    (ccAdd ⟨1/5, oxygen⟩ ⟨1/2, nitrogen⟩).concOf "Oxygen"
      = (ccAdd ⟨1/2, nitrogen⟩ ⟨1/5, oxygen⟩).concOf "Oxygen" :=
  (C4_add_commutative.1 ⟨1/5, oxygen⟩ ⟨1/2, nitrogen⟩ "Oxygen").2

/-- C5: normalise is idempotent: for a mixture built from components with
non-negative concentrations and nonzero total, normalising succeeds, and the
normalised mixture is a fixed point of normalise. -/
theorem C5_normalise_idempotent (parts : List CompoundConcentration)
    (h0 : ∀ p ∈ parts, 0 ≤ p.concentration)
    (ht : partsSum parts ≠ 0) :
    ∃ N : Mixture, (Mixture.ofParts parts none).normalise = Except.ok N
      ∧ N.normalise = Except.ok N := by
  have hsum0 : 0 ≤ partsSum parts := by
    unfold partsSum
    apply List.sum_nonneg
    intro x hx
    obtain ⟨p, hp, rfl⟩ := List.mem_map.1 hx
    exact h0 p hp
  have hspos : 0 < partsSum parts := lt_of_le_of_ne hsum0 (Ne.symm ht)
  have htot : (Mixture.ofParts parts none).total = partsSum parts :=
    mixtureContent_sum parts
  have h0L : ∀ e ∈ (Mixture.ofParts parts none).content, 0 ≤ e.concentration := by
    intro e he
    rw [mixtureContent_conc (show e ∈ mixtureContent parts from he)]
    exact concSum_nonneg h0
  have h1 := normalise_eq htot h0L hspos
  refine ⟨_, h1, ?_⟩
  have hnodupL : (((Mixture.ofParts parts none).content.map
      fun p => p.compound.name)).Nodup := mixtureContent_names_nodup parts
  have hpairL : (Mixture.ofParts parts none).content.Pairwise keyLt :=
    mixtureContent_pairwise parts
  have hsumL : partsSum (Mixture.ofParts parts none).content = partsSum parts :=
    mixtureContent_sum parts
  have hnodupX : ((((Mixture.ofParts parts none).content.map
        fun e => (⟨e.concentration / partsSum parts, e.compound⟩
          : CompoundConcentration)).map
      fun p => p.compound.name)).Nodup := by
    rw [List.map_map]
    exact hnodupL
  have hpairX : (((Mixture.ofParts parts none).content.map
      fun e => (⟨e.concentration / partsSum parts, e.compound⟩
        : CompoundConcentration))).Pairwise keyLt := by
    rw [List.pairwise_map]
    exact hpairL
  have hcontentN : (Mixture.ofParts ((Mixture.ofParts parts none).content.map
        fun e => (⟨e.concentration / partsSum parts, e.compound⟩
          : CompoundConcentration))
        (Mixture.ofParts parts none).name).content
      = (Mixture.ofParts parts none).content.map
        fun e => (⟨e.concentration / partsSum parts, e.compound⟩
          : CompoundConcentration) := by
    rw [ofParts_content]
    exact mixtureContent_id hnodupX hpairX
  have htotN : (Mixture.ofParts ((Mixture.ofParts parts none).content.map
        fun e => (⟨e.concentration / partsSum parts, e.compound⟩
          : CompoundConcentration))
        (Mixture.ofParts parts none).name).total = 1 := by
    rw [Mixture.total, hcontentN, partsSum_scale, hsumL, div_self ht]
  have h0N : ∀ e ∈ (Mixture.ofParts ((Mixture.ofParts parts none).content.map
        fun e => (⟨e.concentration / partsSum parts, e.compound⟩
          : CompoundConcentration))
        (Mixture.ofParts parts none).name).content, 0 ≤ e.concentration := by
    rw [hcontentN]
    intro e he
    obtain ⟨p, hp, rfl⟩ := List.mem_map.1 he
    exact div_nonneg (h0L p hp) hspos.le
  have h2 := normalise_eq htotN h0N one_pos
  rw [h2, hcontentN, map_div_one]
  rfl

/-- Witness for C5: a concrete oxygen/nitrogen mixture normalises
successfully. -/
theorem C5_witness :
    ((Mixture.ofParts [⟨1/2, oxygen⟩, ⟨1/4, nitrogen⟩] none).normalise).toOption.isSome
      = true := by
  obtain ⟨N, h1, -⟩ := C5_normalise_idempotent [⟨1/2, oxygen⟩, ⟨1/4, nitrogen⟩]
    (by intro p hp; rcases List.mem_cons.1 hp with rfl | hp2;
        · norm_num
        · rcases List.mem_cons.1 hp2 with rfl | hp3
          · norm_num
          · simp at hp3)
    (by norm_num)
  rw [h1]
  rfl

/-- C6: when at least one component's compound lacks molecular-structure,
density or specific-heat data, the mixture GCF raises a value error whose
payload lists every such component (not only the first); with no missing
data it returns `0.3106 * Σ cᵢ·structureᵢ / Σ cᵢ·densityᵢ·specific_heatᵢ`. -/
theorem C6_gcf (m : Mixture) :
    ((∃ p ∈ m.content, p.compound.gcf = none) →
      m.gcfResult = Except.error m.gcfErrors ∧ m.gcfErrors ≠ []
        ∧ ∀ p ∈ m.content, p.compound.gcf = none → p ∈ m.gcfErrors)
  ∧ ((∀ p ∈ m.content, p.compound.gcf ≠ none) →
      m.gcfResult = Except.ok (0.3106 * gcfNumerator m / gcfDenominator m)) := by
  constructor
  · rintro ⟨p, hp, hnone⟩
    have hmem : p ∈ m.gcfErrors := by
      unfold Mixture.gcfErrors
      exact List.mem_filter.2 ⟨hp, by simp [hnone]⟩
    have hne : m.gcfErrors ≠ [] := fun hnil => by
      rw [hnil] at hmem
      simp at hmem
    refine ⟨?_, hne, ?_⟩
    · rw [Mixture.gcfResult, if_neg fun hc => hne (List.isEmpty_iff.1 hc)]
    · intro q hq hqnone
      unfold Mixture.gcfErrors
      exact List.mem_filter.2 ⟨hq, by simp [hqnone]⟩
  · intro hall
    have hnil : m.gcfErrors = [] := by
      unfold Mixture.gcfErrors
      rw [List.filter_eq_nil_iff]
      intro a ha
      simp [Option.isNone_iff_eq_none]
      exact hall a ha
    rw [Mixture.gcfResult, if_pos (by rw [hnil]; rfl)]

/-- Witness for C6: a mixture containing `Nitric-oxides` (no physical
constants) has a nonempty error payload, and an air-like mixture computes
the GCF formula. -/
theorem C6_witness :
    mixMissingEx.gcfErrors ≠ []
  ∧ airLikeEx.gcfResult
      = Except.ok (0.3106 * gcfNumerator airLikeEx / gcfDenominator airLikeEx) := by
  constructor
  · refine ((C6_gcf mixMissingEx).1 ⟨⟨1/2, nitricOxides⟩, ?_, rfl⟩).2.1
    norm_num [mixMissingEx, Mixture.ofParts, mixtureContent, partsLut, insertPart,
      lutEntries, sortParts, sortInsert, ccLtB, compoundLt, nitricOxides, nitrogen]
    simp
  · refine (C6_gcf airLikeEx).2 ?_
    intro p hp
    norm_num [airLikeEx, Mixture.ofParts, mixtureContent, partsLut, insertPart,
      lutEntries, sortParts, sortInsert, ccLtB, compoundLt, oxygen, nitrogen] at hp
    rcases hp with rfl | rfl <;> simp [Compound.gcf, oxygen, nitrogen]

/-- C7: compacting a percent/ppm/ppb quantity preserves the underlying
fractional value exactly, and the threshold cascade sends 1000 ppb to 1 ppm
and 1,000,000 ppb to 0.1 percent. -/
theorem C7_to_compact :
    (∀ m : ℚ, ∀ u : CUnit,
      fracValue (toCompactDimensionless (m, u)) = fracValue (m, u))
  ∧ toCompactDimensionless (1000, CUnit.ppb) = (1, CUnit.ppm)
  ∧ toCompactDimensionless (1000000, CUnit.ppb) = (1/10, CUnit.percent) := by
  refine ⟨?_, by norm_num [toCompactDimensionless],
    by norm_num [toCompactDimensionless]⟩
  intro m u
  cases u <;> simp only [toCompactDimensionless] <;> split_ifs <;>
    simp_all [fracValue, CUnit.factor] <;> ring

/-- C8: `parse` raises a parse error on `None` and on unsupported input
types, raises an incompatible-units error when converting a dimensioned
quantity to a unit of a different dimension, and reinterprets a
dimensionless parsed value as the target unit via its dimensionless
magnitude. -/
theorem C8_parse :
    (∀ u : Option MUnit, parse ParseInput.nothing u
        = Except.error (UnitError.parseError "Cannot convert NoneType to Quantity"))
  ∧ (∀ u : Option MUnit, parse ParseInput.unsupported u
        = Except.error (UnitError.parseError "Unsupported input type"))
  ∧ (∀ (q : MQuantity) (u : MUnit), q.unit.dim ≠ 0 → q.unit.dim ≠ u.dim →
      parse (ParseInput.quantity q) (some u)
        = Except.error (UnitError.incompatibleUnits "Unable to convert parsed quantity"))
  ∧ (∀ (q : MQuantity) (u : MUnit), q.unit.dim = 0 →
      parse (ParseInput.quantity q) (some u)
        = Except.ok ⟨q.mag * q.unit.scale, u⟩) := by
  refine ⟨fun u => rfl, fun u => rfl, ?_, ?_⟩
  · intro q u h1 h2
    show parseConvert q (some u) = _
    simp only [parseConvert]
    rw [if_neg h1, if_neg h2]
  · intro q u h1
    show parseConvert q (some u) = _
    simp only [parseConvert]
    rw [if_pos h1]

/-- Witness for C8: metres do not convert to seconds, and a percent
quantity is reinterpreted as ppm via its dimensionless magnitude. -/
theorem C8_witness :
    parse (ParseInput.quantity ⟨5, ⟨1, 1⟩⟩) (some ⟨2, 1⟩)
        = Except.error (UnitError.incompatibleUnits "Unable to convert parsed quantity")
  ∧ parse (ParseInput.quantity ⟨5, ⟨0, 1/100⟩⟩) (some ⟨0, 1/1000000⟩)
        = Except.ok ⟨5 * (1/100), ⟨0, 1/1000000⟩⟩ := by
  constructor
  · exact C8_parse.2.2.1 ⟨5, ⟨1, 1⟩⟩ ⟨2, 1⟩ (by decide) (by decide)
  · exact C8_parse.2.2.2 ⟨5, ⟨0, 1/100⟩⟩ ⟨0, 1/1000000⟩ rfl

/-- C9: at the critical temperature 647.096 K the Wagner-Pruss saturation
pressure equals the critical pressure 22.064 MPa exactly in the real-number
model: every reduced-temperature term vanishes, so the exponential factor
is 1. -/
theorem C9_wagner_pruss_critical :
    water_vp_sat_wagner_pruss 647.096 = 22.064 := by
  simp only [water_vp_sat_wagner_pruss]
  have htk : (647.096 : ℝ) - 273.15 + 273.15 = 647.096 := by norm_num
  rw [htk]
  have hth : wvpsVartheta 647.096 = 0 := by
    unfold wvpsVartheta WATER_TEMPERATURE_CRITICAL
    norm_num
  rw [hth, Real.zero_rpow (by norm_num : (1.5 : ℝ) ≠ 0),
    Real.zero_rpow (by norm_num : (3 : ℝ) ≠ 0),
    Real.zero_rpow (by norm_num : (3.5 : ℝ) ≠ 0),
    Real.zero_rpow (by norm_num : (4 : ℝ) ≠ 0),
    Real.zero_rpow (by norm_num : (7.5 : ℝ) ≠ 0)]
  norm_num [WATER_PRESSURE_CRITICAL, WATER_TEMPERATURE_CRITICAL, Real.exp_zero]

/-- C10: equality of two compound concentrations with the same compound is
tolerance-based with tolerance 1e-15, and it is not transitive: 0 and 1e-15
are equal, 1e-15 and 2e-15 are equal, yet 0 and 2e-15 are not. -/
theorem C10_cc_equality :
    (∀ a b : CompoundConcentration, a.compound.name = b.compound.name →
      (ccEq a b = true ↔ |a.concentration - b.concentration| ≤ 1 / 1000000000000000))
  ∧ ccEq ⟨0, oxygen⟩ ⟨1/1000000000000000, oxygen⟩ = true
  ∧ ccEq ⟨1/1000000000000000, oxygen⟩ ⟨2/1000000000000000, oxygen⟩ = true
  ∧ ccEq ⟨0, oxygen⟩ ⟨2/1000000000000000, oxygen⟩ = false := by
  refine ⟨?_, ?_, ?_, ?_⟩
  · intro a b h
    rw [ccEq, compoundEq]
    simp [h]
  · simp only [ccEq, compoundEq]
    norm_num [abs_le]
  · simp only [ccEq, compoundEq]
    norm_num [abs_le]
  · simp only [ccEq, compoundEq]
    norm_num [abs_le]

/-- Witness for C10: the tolerance criterion instantiated at two equal
oxygen concentrations. -/
theorem C10_witness :
    ccEq ⟨0, oxygen⟩ ⟨0, oxygen⟩ = true
      ↔ |(⟨0, oxygen⟩ : CompoundConcentration).concentration
          - (⟨0, oxygen⟩ : CompoundConcentration).concentration|
        ≤ 1 / 1000000000000000 :=
  C10_cc_equality.1 ⟨0, oxygen⟩ ⟨0, oxygen⟩ rfl

end Gasify
